import Mathlib

/-!
# Verification of the site2pdf crawl-and-render pipeline

Shallow embedding of `src/index.ts` (crawl loop, render scheduling,
output assembly, URL normalization, CLI entry) together with proofs of
the specified properties.

Conventions:
* JavaScript strings are modelled by Lean `String` (a structure over
  `List Char`); the JS string operations used by the program
  (`split("#")[0]`, `endsWith("/")`, `slice(0, -1)`, `includes(sub)`)
  are modelled by the corresponding `List Char` operations.
* The browser is modelled by a finite `Web`: an association list from a
  URL to the list of absolute resolved link targets of the anchors on
  that page.  A URL with no entry fails to fetch (navigation error /
  timeout), which in the code makes `page.goto` reject.
* The URL-pattern regular expression is abstracted as a predicate
  `String → Bool` wherever the code merely tests it; the concrete
  default regex `^mainURL` is modelled separately for the claims about
  it.
* PDF byte streams are modelled abstractly: a rendered document is its
  list of pages (type parameter `α`), so that `pdf-lib`'s
  `copyPages`/`addPage` loop is list concatenation and a page count is
  a list length.
-/

namespace Site2pdf

/-! ## URL normalizer (`normalizeURL`, src/index.ts:220-225) -/

/-- The characters of `url.split("#")[0]` followed by the removal of a
single trailing `'/'` (`slice(0, -1)`), operating on the character list
of the URL. -/
def normalizeChars (cs : List Char) : List Char :=
  let withoutAnchor := cs.takeWhile (fun c => c ≠ '#')
  if withoutAnchor.getLast? = some '/' then withoutAnchor.dropLast else withoutAnchor

/-- Model of `normalizeURL` (src/index.ts:220-225): drop everything from
the first `#` on, then drop a single trailing slash. -/
def normalizeURL (url : String) : String :=
  String.mk (normalizeChars url.toList)

/-! ## Link filtering (`crawlPage`'s `page.evaluate`, src/index.ts:59-74) -/

/-- Model of JavaScript `s.includes(sub)`: `sub` occurs as a contiguous
substring of `s`. -/
def strIncludes (s sub : String) : Bool :=
  go sub.toList s.toList
where
  /-- `sub` occurs as a contiguous block inside `cs`. -/
  go (sub cs : List Char) : Bool :=
    match cs with
    | [] => sub.isEmpty
    | _ :: rest => sub.isPrefixOf cs || go sub rest

/-- The in-page filter applied to each resolved anchor target
(src/index.ts:64-69): keep a URL iff it has no `#`, no `mailto:`, no
`tel:` and the pattern accepts it. -/
def linkFilter (pattern : String → Bool) (resolvedUrl : String) : Bool :=
  !(strIncludes resolvedUrl "#") &&
  !(strIncludes resolvedUrl "mailto:") &&
  !(strIncludes resolvedUrl "tel:") &&
  pattern resolvedUrl

/-! ## The web and the crawl state -/

/-- A finite web: each entry maps a fetchable URL to the absolute
resolved targets of the anchors on its page.  Fetching a URL with no
entry fails (`page.goto` rejects). -/
abbrev Web := List (String × List String)

/-- Fetch a page: the list of resolved anchor targets, or `none` when
navigation fails. -/
def lookupWeb : Web → String → Option (List String)
  | [], _ => none
  | (k, v) :: rest, u => if k = u then some v else lookupWeb rest u

/-- The crawl state of `generatePDF` (src/index.ts:47-48): the
`crawledUrls` JS `Set` in insertion order, and the pending `queue`. -/
structure CrawlState where
  crawledUrls : List String
  queue : List String
deriving Repr, DecidableEq

/-- Model of the inner `crawlPage` closure (src/index.ts:51-85).
Returns `.error currentUrl` when the fetch fails: the code has no
`catch`, so a `page.goto` rejection propagates out of the crawl.
Otherwise appends `currentUrl` to the visited set and enqueues each
surviving link's normalization unless it is already visited or queued. -/
def crawlPage (web : Web) (pattern : String → Bool) (st : CrawlState)
    (currentUrl : String) : Except String CrawlState :=
  if st.crawledUrls.contains currentUrl then .ok st
  else
    let crawled := st.crawledUrls ++ [currentUrl]
    match lookupWeb web currentUrl with
    | none => .error currentUrl
    | some links =>
      let subLinks := links.filter (fun l => linkFilter pattern l)
      let newQueue := subLinks.foldl (fun q link =>
        let normalized := normalizeURL link
        if !crawled.contains normalized && !q.contains normalized then
          q ++ [normalized]
        else q) st.queue
      .ok ⟨crawled, newQueue⟩

/-- The queue-extending fold of `crawlPage` (the `for (const link of
subLinks)` loop, src/index.ts:76-81), factored out for the proofs:
identical to the fold inlined in `crawlPage`. -/
def enqFold (crawled : List String) (links : List String) (q : List String) :
    List String :=
  links.foldl (fun q link =>
    let normalized := normalizeURL link
    if !crawled.contains normalized && !q.contains normalized then
      q ++ [normalized]
    else q) q

/-- Model of the crawl loop `while (queue.length > 0)`
(src/index.ts:88-91), driven by fuel; `none` means the fuel ran out
before the queue emptied. -/
def crawlLoop (web : Web) (pattern : String → Bool) :
    Nat → CrawlState → Option (Except String CrawlState)
  | 0, st =>
    match st.queue with
    | [] => some (.ok st)
    | _ :: _ => none
  | fuel + 1, st =>
    match st.queue with
    | [] => some (.ok st)
    | currentUrl :: rest =>
      match crawlPage web pattern { st with queue := rest } currentUrl with
      | .error e => some (.error e)
      | .ok st' => crawlLoop web pattern fuel st'

/-- Every string that can ever sit in the queue: the seed plus the
normalization of any link of any page of the web. -/
def crawlUniverse (web : Web) (seed : String) : List String :=
  seed :: ((web.map Prod.snd).flatten.map normalizeURL)

/-- The complete crawl phase of `generatePDF` for a given web, pattern
and seed, run with enough fuel to finish (one unit per universe
element). -/
def crawlRun (web : Web) (pattern : String → Bool) (seed : String) :
    Option (Except String CrawlState) :=
  crawlLoop web pattern ((crawlUniverse web seed).dedup).length ⟨[], [seed]⟩

/-- Model of src/index.ts:93-97: `Array.from(crawledUrls)` (insertion
order) with the seed force-prepended when absent. -/
def uniqueSubLinks (crawledUrls : List String) (url : String) : List String :=
  if crawledUrls.contains url then crawledUrls else url :: crawledUrls

/-! ## Render phase and output assembly (src/index.ts:99-206)

A render outcome for one URL is `Option (List α)`: the pages of the
produced PDF, or `none` when any of the per-page steps (navigation,
settling, capture) fails. -/

/-- Model of `generatePDFForPage` (src/index.ts:99-167): the whole body
is wrapped in `try { ... return {url, buffer} } catch { return null }`,
so a failure yields `none` and never a rejection. -/
def generatePDFForPage (render : String → Option (List α)) (link : String) :
    Option (String × List α) :=
  match render link with
  | some pdfBytes => some (link, pdfBytes)
  | none => none

/-- Model of the combined-mode merge loop (src/index.ts:190-201):
`PDFDocument.create()` then, for each successful result in order,
`copyPages` of all of its pages followed by `addPage`. -/
def combinePdfs (pdfResults : List (String × List α)) : List α :=
  pdfResults.foldl (fun pdfDoc r => pdfDoc ++ r.2) []

/-- The value `generatePDF` resolves with: one combined document or one
document per page (src/index.ts:45). -/
inductive PDFOutput (α : Type u) where
  | combined : List α → PDFOutput α
  | separate : List (String × List α) → PDFOutput α
deriving DecidableEq

/-- Model of the render-and-assemble half of `generatePDF`
(src/index.ts:170-206): render every URL (results position-aligned with
the input by `Promise.allSettled`, see `fillSlots` for the
completion-order argument), drop the `null` failures, fail with the
`NoPagesRendered` error when nothing survived, otherwise merge or
return the per-page list. -/
def generatePDFResult (render : String → Option (List α))
    (urls : List String) (separate : Bool) : Except String (PDFOutput α) :=
  let results := urls.map (fun link => generatePDFForPage render link)
  let pdfResults := results.filterMap id
  if pdfResults.length = 0 then .error "No PDFs were generated successfully"
  else if !separate then .ok (.combined (combinePdfs pdfResults))
  else .ok (.separate pdfResults)

/-- Model of
`Promise.allSettled(uniqueSubLinks.map(link => limit(() => generatePDFForPage(link))))`
(src/index.ts:170-174) with an explicit completion order: task `i`
always writes its settled value into its own slot `i` of the results
array, and `order` lists the tasks in the order they complete.
`fillSlots ... i` is the final content of slot `i` (`none` = never
completed). -/
def fillSlots (render : String → Option (List α)) (urls : List String)
    (order : List Nat) : Nat → Option (Option (String × List α)) :=
  order.foldl
    (fun slots i => fun j =>
      if j = i then some (generatePDFForPage render (urls.getD i "")) else slots j)
    (fun _ => none)

/-! ## `generatePDF` end to end (src/index.ts:39-207) -/

/-- Model of the exported `generatePDF`: crawl from the seed, build
`uniqueSubLinks`, then render and assemble.  A crawl-phase fetch
failure propagates (there is no `catch` around the crawl loop). -/
def generatePDF (web : Web) (pattern : String → Bool)
    (render : String → Option (List α)) (url : String) (separate : Bool) :
    Except String (PDFOutput α) :=
  match (crawlRun web pattern url).getD (.error "out of fuel") with
  | .error e => .error e
  | .ok st => generatePDFResult render (uniqueSubLinks st.crawledUrls url) separate

/-! ## Default URL pattern (src/index.ts:240-241)

`main` builds `new RegExp("^" + mainURL)` without escaping the seed, and
`crawlPage` runs `new RegExp(pattern).test(resolvedUrl)` on it.  The
regex is anchored by the leading `^` (and not multiline), so the test
is an anchored match of the seed — read as a regular expression — at
the front of the candidate.  The model below implements the fragment of
JS regular expressions in which every character is a literal except `.`
(which matches any single character) and a `?` following an atom (which
makes that atom optional).  Patterns using any other metacharacter
(grouping, classes, alternation, escapes, braces, anchors, other
quantifiers) are outside this model: the universally quantified claim
below therefore restricts its seeds, via `isRegexMeta`, to seeds with
no metacharacters at all, where the model provably coincides with the
real semantics, and uses the `.`/`?` semantics only at concrete
counterexample patterns inside the fragment. -/

/-- The characters the JS `RegExp` constructor treats specially; on a
seed containing none of them, the regex built from the seed matches the
seed's characters literally. -/
def isRegexMeta (c : Char) : Bool :=
  c = '.' || c = '?' || c = '*' || c = '+' || c = '(' || c = ')' ||
  c = '[' || c = ']' || c = '{' || c = '}' || c = '|' || c = '\\' ||
  c = '^' || c = '$'

/-- One pattern atom against one subject character: `.` matches
anything, everything else matches itself. -/
def regexCharMatches (p c : Char) : Bool :=
  p = '.' || p = c

/-- Anchored match of the pattern against the front of the subject, for
patterns in the literal/`.`/`?` fragment: an atom followed by `?` may
be skipped or consume one matching character (both orders of
backtracking accept the same subjects), any other atom must consume one
matching character; trailing subject characters are allowed. -/
def matchAnchored : List Char → List Char → Bool
  | [], _ => true
  | [p], s =>
    match s with
    | [] => false
    | c :: _ => regexCharMatches p c
  | p :: q :: ps, s =>
    if q = '?' then
      matchAnchored ps s ||
        (match s with
         | [] => false
         | c :: cs => regexCharMatches p c && matchAnchored ps cs)
    else
      match s with
      | [] => false
      | c :: cs => regexCharMatches p c && matchAnchored (q :: ps) cs

/-- Model of the default filtering predicate
`new RegExp("^" + mainURL).test(s)` built at src/index.ts:241 when no
url-pattern argument is supplied, for seeds inside the modelled
literal/`.`/`?` regex fragment. -/
def defaultPatternAccepts (mainURL s : String) : Bool :=
  matchAnchored mainURL.toList s.toList

/-! ## The p-limit concurrency gate (src/index.ts:46,170-174)

Modelled from the spec: the `p-limit` package itself is a dependency and
not part of the repository; §4.3/§5 of the spec describe it as a gate
that lets at most `concurrencyLimit` render operations run at once,
queueing admission beyond the limit until a slot frees, with every
submitted task eventually run.  Tasks are identified by their index. -/

/-- Modelled from the spec: the state of the `p-limit` gate (the
package is a dependency, its source is not in the repository) — tasks
not yet admitted, tasks currently running, tasks finished. -/
structure LimitState where
  waiting : List Nat
  active : List Nat
  completed : List Nat
deriving DecidableEq

/-- Modelled from the spec: one transition of the `p-limit` gate —
admit the front waiting task when a slot is free ("admission beyond the
limit queues until a slot frees"), or finish any running task. -/
inductive LimitStep (limit : Nat) : LimitState → LimitState → Prop
  | start (t : Nat) (rest active completed : List Nat)
      (h : active.length < limit) :
      LimitStep limit ⟨t :: rest, active, completed⟩ ⟨rest, t :: active, completed⟩
  | finish (t : Nat) (waiting active completed : List Nat) (h : t ∈ active) :
      LimitStep limit ⟨waiting, active, completed⟩
        ⟨waiting, active.erase t, t :: completed⟩

/-- Modelled from the spec: gate states reachable from the initial
submission of `tasks`. -/
inductive LimitReach (limit : Nat) (tasks : List Nat) : LimitState → Prop
  | init : LimitReach limit tasks ⟨tasks, [], []⟩
  | step {s s' : LimitState} : LimitReach limit tasks s → LimitStep limit s s' →
      LimitReach limit tasks s'

/-- Modelled from the spec: a gate state from which no further
transition is possible. -/
def LimitTerminal (limit : Nat) (s : LimitState) : Prop :=
  ∀ s', ¬ LimitStep limit s s'

/-! ## `main` (src/index.ts:233-280) -/

/-- What a `main` call leaves behind: the outcome propagated to the
caller, whether `ctx?.browser.close()` in the `finally` actually found
a browser to close, and the error reported by the `catch`, if any. -/
structure MainOutcome where
  result : Except String Unit
  closeAttempted : Bool
  reportedError : Option String

/-- Model of `const pattern = urlPattern || new RegExp("^" + mainURL)`
(src/index.ts:241): when a url-pattern was supplied the `||`
short-circuits and no regex is constructed; otherwise the result is
whatever the default construction produced.  `defaultPatternBuild`
models `new RegExp("^" + mainURL)` — the JS regex compiler is external
to the repository; it yields the predicate on success and throws a
`SyntaxError` when the seed is not a valid regular expression (for
example a seed containing an unmatched `(`). -/
def effectivePattern (urlPattern : Option (String → Bool))
    (defaultPatternBuild : Except String (String → Bool)) :
    Except String (String → Bool) :=
  match urlPattern with
  | some p => .ok p
  | none => defaultPatternBuild

/-- Model of `main` (src/index.ts:233-280).  An empty seed throws
before the `try`.  The pattern is then built (src/index.ts:241) — still
*outside* the `try`, so a throwing default `new RegExp` construction
propagates to the caller with nothing caught, no browser launched and
no close attempted.  Afterwards launch, `generatePDF` and the
filesystem writes all run inside the `try`, whose `catch` logs the
error and whose `finally` closes the browser when one was launched.
`launch` models `useBrowserContext()` and `writeResult` the
`fs.ensureDir`/`fs.writeFile` calls. -/
def main (mainURL : String) (urlPattern : Option (String → Bool))
    (defaultPatternBuild : Except String (String → Bool))
    (launch : Except String Unit) (web : Web)
    (render : String → Option (List α)) (separate : Bool)
    (writeResult : Except String Unit) : MainOutcome :=
  if mainURL = "" then
    { result := .error "<main_url> is required", closeAttempted := false,
      reportedError := none }
  else
    match effectivePattern urlPattern defaultPatternBuild with
    | .error e =>
      { result := .error e, closeAttempted := false, reportedError := none }
    | .ok pattern =>
      match launch with
      | .error e =>
        { result := .ok (), closeAttempted := false, reportedError := some e }
      | .ok _ =>
        match generatePDF web pattern render mainURL separate with
        | .error e =>
          { result := .ok (), closeAttempted := true, reportedError := some e }
        | .ok _ =>
          match writeResult with
          | .error e =>
            { result := .ok (), closeAttempted := true, reportedError := some e }
          | .ok _ =>
            { result := .ok (), closeAttempted := true, reportedError := none }

/-! ## Crawl invariants and reachability -/

/-- `v` is the normalization of some link of some page of the web that
survives the in-page filter: the only way (other than being the seed)
for a URL to enter the crawl structures. -/
def LinkOrigin (web : Web) (pattern : String → Bool) (v : String) : Prop :=
  ∃ u links l, lookupWeb web u = some links ∧ l ∈ links ∧
    linkFilter pattern l = true ∧ v = normalizeURL l

/-- Invariant of the crawl loop state: the queue holds distinct strings
none of which was already visited, the visited list holds distinct
strings, everything lives in the finite universe, every entry is the
seed or originates from a filtered link, and the seed is the first
visited URL. -/
structure CrawlInv (web : Web) (pattern : String → Bool) (seed : String)
    (st : CrawlState) : Prop where
  queue_nodup : st.queue.Nodup
  queue_disjoint : ∀ u ∈ st.queue, u ∉ st.crawledUrls
  crawled_nodup : st.crawledUrls.Nodup
  queue_univ : ∀ u ∈ st.queue, u ∈ crawlUniverse web seed
  crawled_univ : ∀ u ∈ st.crawledUrls, u ∈ crawlUniverse web seed
  queue_origin : ∀ v ∈ st.queue, v = seed ∨ LinkOrigin web pattern v
  crawled_origin : ∀ v ∈ st.crawledUrls, v = seed ∨ LinkOrigin web pattern v
  seed_first : (st.crawledUrls = [] ∧ st.queue = [seed]) ∨
    st.crawledUrls.head? = some seed

/-- The states the crawl loop of `generatePDF` can pass through,
starting from `queue = [seed]`. -/
inductive CrawlReach (web : Web) (pattern : String → Bool) (seed : String) :
    CrawlState → Prop
  | init : CrawlReach web pattern seed ⟨[], [seed]⟩
  | step {st st' : CrawlState} {u : String} {rest : List String} :
      CrawlReach web pattern seed st → st.queue = u :: rest →
      crawlPage web pattern { st with queue := rest } u = .ok st' →
      CrawlReach web pattern seed st'

/-- Count of universe URLs not yet visited: the termination measure of
the crawl loop. -/
def remaining (web : Web) (seed : String) (st : CrawlState) : Nat :=
  ((crawlUniverse web seed).dedup.filter
    (fun x => !st.crawledUrls.contains x)).length

/-! ## Concrete inputs used by counterexamples and witnesses -/

/-- A web on which two distinct URL strings with the same normalized
form are both fetched: the seed page links to `.../x//` and `.../x/`,
which normalize to the distinct strings `.../x/` and `.../x`. -/
def cexWeb1 : Web :=
  [("https://a.com", ["https://a.com/x//", "https://a.com/x/"]),
   ("https://a.com/x/", []),
   ("https://a.com/x", [])]

/-- A web whose seed page links to two pages, the first of which fails
to fetch (no entry). -/
def cexWeb2 : Web :=
  [("https://a.com", ["https://a.com/u2", "https://a.com/u3"]),
   ("https://a.com/u3", [])]

/-- A one-page web with no links, for witnesses. -/
def w0 : Web := [("s", [])]

/-! # Lemmas about the URL normalizer -/

theorem hash_not_mem_normalizeChars (cs : List Char) : '#' ∉ normalizeChars cs := by
  intro hmem
  by_cases hc : (cs.takeWhile (fun c => c ≠ '#')).getLast? = some '/'
  · simp only [normalizeChars, hc, if_pos] at hmem
    have := List.mem_takeWhile_imp (List.mem_of_mem_dropLast hmem)
    simp at this
  · simp only [normalizeChars, hc, if_neg, not_false_iff] at hmem
    have := List.mem_takeWhile_imp hmem
    simp at this

theorem takeWhile_hash_eq_self {cs : List Char} (h : '#' ∉ cs) :
    cs.takeWhile (fun c => c ≠ '#') = cs := by
  rw [List.takeWhile_eq_self_iff]
  intro x hx
  simp only [ne_eq, decide_eq_true_eq]
  exact fun hEq => h (hEq ▸ hx)

theorem normalizeChars_idem {cs : List Char}
    (h : (normalizeChars cs).getLast? ≠ some '/') :
    normalizeChars (normalizeChars cs) = normalizeChars cs := by
  have hnohash := hash_not_mem_normalizeChars cs
  generalize hg : normalizeChars cs = cs' at h hnohash ⊢
  simp only [normalizeChars, takeWhile_hash_eq_self hnohash]
  simp [h]

theorem toList_normalizeURL (u : String) :
    (normalizeURL u).toList = normalizeChars u.toList := rfl

/-- Prefix fact used to transport the absence of `#`/`mailto:`/`tel:`
from a link to its normalization. -/
theorem normalizeChars_isPrefix (cs : List Char) : normalizeChars cs <+: cs := by
  unfold normalizeChars
  have htake : cs.takeWhile (fun c => c ≠ '#') <+: cs :=
    ⟨cs.dropWhile (fun c => c ≠ '#'), List.takeWhile_append_dropWhile _ _⟩
  have hdrop : ∀ l : List Char, l.dropLast <+: l := by
    intro l
    rw [List.dropLast_eq_take]
    exact ⟨_, List.take_append_drop _ _⟩
  by_cases hc : (cs.takeWhile (fun c => c ≠ '#')).getLast? = some '/'
  · simp only [normalizeChars, hc, if_pos]
    exact List.IsPrefix.trans (hdrop _) htake
  · simp only [normalizeChars, hc, if_neg, not_false_iff]
    exact htake

/-! # C7: normalization idempotence -/

/-- C7 counterexample: `normalizeURL` is not idempotent on every URL
string.  `"https://a.com//"` has two trailing slashes; one application
removes only one of them, so a second application changes the result
again. -/
theorem normalizeURL_not_idempotent :
    normalizeURL (normalizeURL "https://a.com//") ≠ normalizeURL "https://a.com//" := by
  decide

/-- C7 (amended): normalization is idempotent for every URL whose
normalized form does not end in `/` — that is, whose pre-fragment part
does not end in a doubled slash.  (`normalizeURL` removes the fragment
and a single trailing slash, so only a `//` before the fragment breaks
idempotence.) -/
theorem normalizeURL_idem (u : String)
    (h : (normalizeURL u).toList.getLast? ≠ some '/') :
    normalizeURL (normalizeURL u) = normalizeURL u := by
  have h' : (normalizeChars u.toList).getLast? ≠ some '/' := h
  exact congrArg String.mk (normalizeChars_idem h')

/-- C7 witness: idempotence at `"https://a.com/p#frag"`. -/
theorem normalizeURL_idem_witness :
    normalizeURL (normalizeURL "https://a.com/p#frag") = normalizeURL "https://a.com/p#frag" :=
  normalizeURL_idem "https://a.com/p#frag" (by decide)

/-! # C9: the default URL pattern -/

theorem matchAnchored_eq_isPrefixOf :
    ∀ (pat s : List Char), (∀ c ∈ pat, isRegexMeta c = false) →
      matchAnchored pat s = pat.isPrefixOf s := by
  intro pat
  induction pat with
  | nil => intro s _; simp [matchAnchored]
  | cons p rest ih =>
    intro s h
    have hp : isRegexMeta p = false := h p (List.mem_cons_self _ _)
    have hpdot : ¬ p = '.' := by
      intro he
      rw [he] at hp
      exact absurd hp (by decide)
    have hchar : ∀ c : Char, regexCharMatches p c = (p == c) := by
      intro c
      by_cases hc : p = c <;> simp [regexCharMatches, hpdot, hc]
    cases rest with
    | nil =>
      cases s with
      | nil => simp [matchAnchored]
      | cons c cs =>
        simp only [matchAnchored, hchar, List.isPrefixOf_cons₂]
        simp
    | cons q rest' =>
      have hq : isRegexMeta q = false := h q
        (List.mem_cons_of_mem _ (List.mem_cons_self _ _))
      have hq' : ¬ q = '?' := by
        intro he
        rw [he] at hq
        exact absurd hq (by decide)
      have hrest : ∀ c ∈ q :: rest', isRegexMeta c = false :=
        fun c hc => h c (List.mem_cons_of_mem _ hc)
      cases s with
      | nil => simp [matchAnchored, hq']
      | cons c cs =>
        simp only [matchAnchored, if_neg hq', hchar, ih cs hrest,
          List.isPrefixOf_cons₂]

/-- C9 counterexample: the default predicate is
`new RegExp("^" + mainURL)` with the seed *unescaped*, and it is not
the prefix test in either direction.  The `.` in the seed's host
matches any character, so `https://axcom/p` is accepted for the seed
`https://a.com` though it does not start with it; and for a seed with a
query string, `https://a.com/p?q=1`, the `?` makes the `p` optional and
the regex then requires a `q`, so the seed itself — which certainly
starts with the seed — is rejected. -/
theorem defaultPattern_divergent :
    defaultPatternAccepts "https://a.com" "https://axcom/p" = true ∧
    "https://a.com".toList.isPrefixOf "https://axcom/p".toList = false ∧
    defaultPatternAccepts "https://a.com/p?q=1" "https://a.com/p?q=1" = false ∧
    "https://a.com/p?q=1".toList.isPrefixOf
      "https://a.com/p?q=1".toList = true := by
  decide

/-- C9 (amended): the default predicate is the unescaped anchored regex
`^mainURL`, which is not the prefix test in general: metacharacters in
the seed are interpreted, making acceptance broader in some cases (`.`
matches any character) and narrower in others (a `?` in the seed can
make the regex reject URLs that do start with the seed, including the
seed itself).  The predicate accepts exactly the URLs starting with the
seed precisely for seeds containing no regex metacharacter at all. -/
theorem defaultPattern_agrees_on_literal_seeds (seed s : String)
    (h : ∀ c ∈ seed.toList, isRegexMeta c = false) :
    defaultPatternAccepts seed s = seed.toList.isPrefixOf s.toList :=
  matchAnchored_eq_isPrefixOf seed.toList s.toList h

/-- C9 witness: a metacharacter-free seed, where the predicate and the
prefix test agree. -/
theorem defaultPattern_agrees_witness :
    defaultPatternAccepts "https://a" "https://a/p" =
      "https://a".toList.isPrefixOf "https://a/p".toList :=
  defaultPattern_agrees_on_literal_seeds "https://a" "https://a/p" (by decide)

/-! # Lemmas about the render phase -/

theorem generatePDFForPage_eq {α : Type} (render : String → Option (List α))
    (u : String) :
    generatePDFForPage render u = (render u).map (fun b => (u, b)) := by
  unfold generatePDFForPage
  cases render u <;> rfl

theorem pdfResults_eq {α : Type} (render : String → Option (List α))
    (urls : List String) :
    (urls.map (fun link => generatePDFForPage render link)).filterMap id =
      urls.filterMap (fun u => (render u).map (fun b => (u, b))) := by
  rw [List.filterMap_map]
  exact List.filterMap_congr (fun u _ => generatePDFForPage_eq render u)

theorem combinePdfs_length_aux {α : Type} :
    ∀ (L : List (String × List α)) (acc : List α),
      (L.foldl (fun pdfDoc r => pdfDoc ++ r.2) acc).length =
        acc.length + (L.map (fun r => r.2.length)).sum := by
  intro L
  induction L with
  | nil => intro acc; simp
  | cons r rest ih =>
    intro acc
    simp only [List.foldl_cons, ih, List.map_cons, List.sum_cons,
      List.length_append]
    omega

/-- The merged document has as many pages as the successful per-page
documents together. -/
theorem combinePdfs_length {α : Type} (L : List (String × List α)) :
    (combinePdfs L).length = (L.map (fun r => r.2.length)).sum := by
  unfold combinePdfs
  simpa using combinePdfs_length_aux L []

theorem pdfResults_snd {α : Type} (render : String → Option (List α))
    (urls : List String) :
    (urls.filterMap (fun u => (render u).map (fun b => (u, b)))).map
        (fun r => r.2) =
      urls.filterMap (fun u => render u) := by
  rw [List.map_filterMap]
  apply List.filterMap_congr
  intro u _
  cases render u <;> rfl

/-! # C3: partial render failure and the all-failed fatal error -/

/-- C3: the render/assembly stage fails (with the
`"No PDFs were generated successfully"` error) exactly when every render
failed, and otherwise the output contains exactly the successful
renders, in original input order: the separate-mode list and the
combined-mode merge are both built from
`urls.filterMap (successes only)`, which preserves input order and
drops only the failed URLs. -/
theorem generatePDF_partial_failure {α : Type} (render : String → Option (List α))
    (urls : List String) (separate : Bool) :
    ((∃ e, generatePDFResult render urls separate = .error e) ↔
      ∀ u ∈ urls, render u = none) ∧
    (∀ L, generatePDFResult render urls true = .ok (.separate L) →
      L = urls.filterMap (fun u => (render u).map (fun b => (u, b)))) ∧
    (∀ d, generatePDFResult render urls false = .ok (.combined d) →
      d = combinePdfs (urls.filterMap (fun u => (render u).map (fun b => (u, b))))) := by
  have hres := pdfResults_eq render urls
  refine ⟨⟨?_, ?_⟩, ?_, ?_⟩
  · rintro ⟨e, he⟩
    simp only [generatePDFResult, hres] at he
    by_cases hlen :
        (urls.filterMap (fun u => (render u).map (fun b => (u, b)))).length = 0
    · rw [List.length_eq_zero, List.filterMap_eq_nil_iff] at hlen
      intro u hu
      have := hlen u hu
      cases hr : render u
      · rfl
      · rw [hr] at this; simp at this
    · rw [if_neg hlen] at he
      by_cases hsep : separate <;> simp [hsep] at he
  · intro hall
    refine ⟨"No PDFs were generated successfully", ?_⟩
    simp only [generatePDFResult, hres]
    have hnil : urls.filterMap (fun u => (render u).map (fun b => (u, b))) = [] := by
      rw [List.filterMap_eq_nil_iff]
      intro u hu
      rw [hall u hu]
      rfl
    rw [hnil]
    rfl
  · intro L hL
    simp only [generatePDFResult, hres] at hL
    by_cases hlen :
        (urls.filterMap (fun u => (render u).map (fun b => (u, b)))).length = 0
    · rw [if_pos hlen] at hL
      simp at hL
    · rw [if_neg hlen] at hL
      simp only [Bool.not_true, if_neg] at hL
      simp at hL
      exact hL.symm
  · intro d hd
    simp only [generatePDFResult, hres] at hd
    by_cases hlen :
        (urls.filterMap (fun u => (render u).map (fun b => (u, b)))).length = 0
    · rw [if_pos hlen] at hd
      simp at hd
    · rw [if_neg hlen] at hd
      simp at hd
      exact hd.symm

/-- C3 witness: two URLs, the second render fails; the output is the
first page set alone, and the all-failed error does not fire. -/
theorem generatePDF_partial_failure_witness :
    ([("a", [0])] : List (String × List Nat)) =
      ["a", "b"].filterMap
        (fun u => ((fun v => if v = "a" then some [0] else none) u).map
          (fun b => (u, b))) :=
  (generatePDF_partial_failure (fun v => if v = "a" then some [0] else none)
    ["a", "b"] true).2.1 [("a", [0])] (by rfl)

/-! # C4: result alignment and combined-mode page count -/

theorem fillSlots_untouched {α : Type} (render : String → Option (List α))
    (urls : List String) :
    ∀ (order : List Nat) (init : Nat → Option (Option (String × List α)))
      (i : Nat), i ∉ order →
      (order.foldl
        (fun slots j => fun k =>
          if k = j then some (generatePDFForPage render (urls.getD j "")) else slots k)
        init) i = init i := by
  intro order
  induction order with
  | nil => intro init i _; rfl
  | cons a rest ih =>
    intro init i hi
    simp only [List.mem_cons, not_or] at hi
    simp only [List.foldl_cons]
    rw [ih _ i hi.2]
    simp [hi.1]

theorem fillSlots_mem {α : Type} (render : String → Option (List α))
    (urls : List String) :
    ∀ (order : List Nat) (init : Nat → Option (Option (String × List α)))
      (i : Nat), i ∈ order →
      (order.foldl
        (fun slots j => fun k =>
          if k = j then some (generatePDFForPage render (urls.getD j "")) else slots k)
        init) i = some (generatePDFForPage render (urls.getD i "")) := by
  intro order
  induction order with
  | nil => intro init i hi; simp at hi
  | cons a rest ih =>
    intro init i hi
    simp only [List.foldl_cons]
    by_cases hr : i ∈ rest
    · exact ih _ i hr
    · have hia : i = a := by
        rcases List.mem_cons.mp hi with h | h
        · exact h
        · exact absurd h hr
      rw [fillSlots_untouched render urls rest _ i hr]
      subst hia
      simp

/-- C4: whatever order the scheduled render tasks complete in (any
permutation of the task indices), slot `i` of the settled-results array
holds the render result of the `i`-th input URL; and the combined
document's page count is the sum of the page counts of the successfully
rendered per-page documents. -/
theorem generatePDF_order_and_pagecount {α : Type}
    (render : String → Option (List α)) (urls : List String)
    (order : List Nat) (h : order.Perm (List.range urls.length)) :
    (∀ i, i < urls.length →
      fillSlots render urls order i =
        some (generatePDFForPage render (urls.getD i ""))) ∧
    (∀ d, generatePDFResult render urls false = .ok (.combined d) →
      d.length =
        ((urls.filterMap (fun u => render u)).map List.length).sum) := by
  constructor
  · intro i hi
    have hmem : i ∈ order := h.mem_iff.mpr (List.mem_range.mpr hi)
    exact fillSlots_mem render urls order _ i hmem
  · intro d hd
    simp only [generatePDFResult, pdfResults_eq render urls] at hd
    by_cases hlen :
        (urls.filterMap (fun u => (render u).map (fun b => (u, b)))).length = 0
    · rw [if_pos hlen] at hd
      simp at hd
    · rw [if_neg hlen] at hd
      simp at hd
      rw [← hd, combinePdfs_length, ← pdfResults_snd render urls,
        List.map_map]
      rfl

/-- C4 witness: two URLs completing in reverse order still fill the
slots in input order, and the merged page count is the sum of the
successes. -/
theorem generatePDF_order_and_pagecount_witness :
    fillSlots (fun v => if v = "a" then some [0, 1] else some [7])
        ["a", "b"] [1, 0] 0 =
      some (generatePDFForPage
        (fun v => if v = "a" then some [0, 1] else some [7])
        (["a", "b"].getD 0 "")) :=
  (generatePDF_order_and_pagecount
    (fun v => if v = "a" then some [0, 1] else some [7])
    ["a", "b"] [1, 0] (by decide)).1 0 (by decide)

/-! # C10: error propagation out of main -/

/-- C10 counterexample: `main` can propagate an error to its caller for
a non-empty seed.  With no url-pattern argument, the default
`new RegExp("^" + mainURL)` at src/index.ts:241 is evaluated *outside*
the `try`; a seed that is not a valid regular expression (such as
`https://a.com/(`, whose unmatched `(` is a regex syntax error, while
unbalanced parentheses are legal in URLs) makes the construction throw,
so `main` rejects with nothing caught or reported and no browser close
attempted (none was launched). -/
theorem main_propagates_regex_error :
    (main "https://a.com/(" none
        (Except.error "Invalid regular expression: missing closing parenthesis")
        (Except.ok ()) w0 (fun _ => (none : Option (List Nat))) false
        (Except.ok ())) =
      { result :=
          Except.error "Invalid regular expression: missing closing parenthesis",
        closeAttempted := false, reportedError := none } ∧
    "https://a.com/(" ≠ "" :=
  ⟨rfl, by decide⟩

/-- C10 (amended): once a non-empty seed URL is provided *and* the
effective pattern is obtained — automatic when an explicit url-pattern
is supplied, and requiring only that the default
`new RegExp("^" + mainURL)` construction succeeds otherwise — `main`
never propagates an error: a launch failure, any `generatePDF` error
(crawl, render, assembly) and any filesystem-write error are all caught
and reported, `main` resolves normally, and the `finally` close of the
browser is attempted exactly on the paths where a browser context was
obtained — in particular on every path where a pipeline error was
raised.  When the default regex construction itself throws (possible
only for a seed that is an invalid regular expression), that error
propagates to the caller from before the `try`. -/
theorem main_resolves {α : Type} (mainURL : String)
    (urlPattern : Option (String → Bool))
    (defaultPatternBuild : Except String (String → Bool))
    (launch : Except String Unit) (web : Web)
    (render : String → Option (List α)) (separate : Bool)
    (writeResult : Except String Unit) (pattern : String → Bool)
    (hseed : mainURL ≠ "")
    (hpat : effectivePattern urlPattern defaultPatternBuild = .ok pattern) :
    (main mainURL urlPattern defaultPatternBuild launch web render separate
      writeResult).result = Except.ok () ∧
    ((main mainURL urlPattern defaultPatternBuild launch web render separate
      writeResult).closeAttempted = true ↔ launch = Except.ok ()) ∧
    (∀ e, launch = Except.ok () →
      generatePDF web pattern render mainURL separate = Except.error e →
      (main mainURL urlPattern defaultPatternBuild launch web render separate
        writeResult).reportedError = some e) := by
  unfold main
  rw [if_neg hseed, hpat]
  cases launch with
  | error e => simp
  | ok u =>
    cases u
    cases hg : generatePDF web pattern render mainURL separate with
    | error e => simp [hg]
    | ok out =>
      cases writeResult with
      | error e' => simp [hg]
      | ok u' => simp [hg]

/-- C10 witness: a concrete run (default pattern built successfully)
with a failing renderer — `main` resolves normally. -/
theorem main_resolves_witness :
    (main "s" none (Except.ok (fun _ => true)) (Except.ok ()) w0
        (fun _ => (none : Option (List Nat))) false (Except.ok ())).result =
      Except.ok () :=
  (main_resolves "s" none (Except.ok (fun _ => true)) (Except.ok ()) w0
    (fun _ => (none : Option (List Nat))) false (Except.ok ())
    (fun _ => true) (by decide) rfl).1

/-! # C8: the concurrency gate -/

/-- Any state of the gate other than "everything finished" can take a
step when the limit is positive. -/
theorem limitTerminal_shape {limit : Nat} {s : LimitState}
    (hlim : 1 ≤ limit) (hterm : LimitTerminal limit s) :
    s.waiting = [] ∧ s.active = [] := by
  obtain ⟨waiting, active, completed⟩ := s
  cases active with
  | cons a rest =>
    exact absurd (LimitStep.finish a waiting (a :: rest) completed
      (List.mem_cons_self a rest)) (hterm _)
  | nil =>
    cases waiting with
    | nil => exact ⟨rfl, rfl⟩
    | cons t rest =>
      exact absurd (LimitStep.start t rest [] completed hlim) (hterm _)

/-- C8: in every reachable state of the concurrency gate at most
`concurrencyLimit` tasks are active, no submitted task is lost or
duplicated, and when the gate can do nothing more (and the limit is
positive) every submitted task has been run to completion. -/
theorem limit_concurrency_bound (limit : Nat) (tasks : List Nat)
    (s : LimitState) (hlim : 1 ≤ limit)
    (hreach : LimitReach limit tasks s) :
    s.active.length ≤ limit ∧
    (s.waiting ++ s.active ++ s.completed).Perm tasks ∧
    (LimitTerminal limit s → s.completed.Perm tasks) := by
  have hmain : s.active.length ≤ limit ∧
      (s.waiting ++ s.active ++ s.completed).Perm tasks := by
    induction hreach with
    | init => simp
    | step hr hs ih =>
      cases hs with
      | start t rest active completed hlt =>
        refine ⟨hlt, ?_⟩
        refine List.Perm.trans ?_ ih.2
        refine List.Perm.trans
          (List.Perm.append_right completed List.perm_middle) ?_
        simp
      | finish t waiting active completed hmem =>
        refine ⟨Nat.le_trans (List.length_erase_le _ _) ih.1, ?_⟩
        refine List.Perm.trans ?_ ih.2
        have hp : active.Perm (t :: active.erase t) :=
          List.perm_cons_erase hmem
        have h1 : ((waiting ++ active.erase t) ++ t :: completed).Perm
            (t :: ((waiting ++ active.erase t) ++ completed)) :=
          List.perm_middle
        have h2 : ((waiting ++ (t :: active.erase t)) ++ completed).Perm
            (t :: ((waiting ++ active.erase t) ++ completed)) :=
          List.Perm.append_right completed List.perm_middle
        have h3 : ((waiting ++ (t :: active.erase t)) ++ completed).Perm
            ((waiting ++ active) ++ completed) :=
          List.Perm.append_right completed
            (List.Perm.append_left waiting hp.symm)
        exact h1.trans (h2.symm.trans h3)
  refine ⟨hmain.1, hmain.2, fun hterm => ?_⟩
  obtain ⟨hw, ha⟩ := limitTerminal_shape hlim hterm
  have hperm := hmain.2
  rw [hw, ha] at hperm
  simpa using hperm

/-- C8 witness: one task under limit 1, at the finished state reached
by admitting and completing it; the bound holds and the task ran. -/
theorem limit_concurrency_bound_witness :
    (⟨[], [], [0]⟩ : LimitState).active.length ≤ 1 ∧
    ((⟨[], [], [0]⟩ : LimitState).waiting ++
      (⟨[], [], [0]⟩ : LimitState).active ++
      (⟨[], [], [0]⟩ : LimitState).completed).Perm [0] ∧
    (LimitTerminal 1 (⟨[], [], [0]⟩ : LimitState) →
      (⟨[], [], [0]⟩ : LimitState).completed.Perm [0]) :=
  limit_concurrency_bound 1 [0] ⟨[], [], [0]⟩ (by decide)
    (LimitReach.step
      (LimitReach.step LimitReach.init
        (LimitStep.start 0 [] [] [] (by decide)))
      (LimitStep.finish 0 [] [0] [] (by decide)))

/-! # Lemmas about the crawl loop -/

theorem contains_eq_false {l : List String} {x : String} :
    l.contains x = false ↔ x ∉ l := by
  unfold List.contains
  simp [List.elem_eq_mem]

theorem contains_eq_true {l : List String} {x : String} :
    l.contains x = true ↔ x ∈ l := by
  unfold List.contains
  simp [List.elem_eq_mem]

theorem nodup_concat {l : List String} {a : String} (h : l.Nodup)
    (ha : a ∉ l) : (l ++ [a]).Nodup := by
  simp [List.nodup_append, h, ha]

theorem lookupWeb_mem {web : Web} {u : String} {ls : List String}
    (h : lookupWeb web u = some ls) : ls ∈ web.map Prod.snd := by
  induction web with
  | nil => simp [lookupWeb] at h
  | cons kv rest ih =>
    obtain ⟨k, v⟩ := kv
    by_cases hk : k = u
    · simp only [lookupWeb, if_pos hk, Option.some.injEq] at h
      subst h
      exact List.mem_cons_self _ _
    · simp only [lookupWeb, if_neg hk] at h
      exact List.mem_cons_of_mem _ (ih h)

theorem mem_crawlUniverse_of_link {web : Web} {seed u l : String}
    {links : List String} (hlk : lookupWeb web u = some links)
    (hl : l ∈ links) : normalizeURL l ∈ crawlUniverse web seed := by
  unfold crawlUniverse
  exact List.mem_cons_of_mem _
    (List.mem_map_of_mem _ (List.mem_flatten_of_mem (lookupWeb_mem hlk) hl))

theorem crawlPage_error (web : Web) (pattern : String → Bool)
    (st : CrawlState) (u : String)
    (hnc : st.crawledUrls.contains u = false)
    (hlk : lookupWeb web u = none) :
    crawlPage web pattern st u = .error u := by
  have hnm : u ∉ st.crawledUrls := contains_eq_false.mp hnc
  simp [crawlPage, hnm, hlk]

theorem crawlPage_ok (web : Web) (pattern : String → Bool)
    (st : CrawlState) (u : String) {links : List String}
    (hnc : st.crawledUrls.contains u = false)
    (hlk : lookupWeb web u = some links) :
    crawlPage web pattern st u =
      .ok ⟨st.crawledUrls ++ [u],
        enqFold (st.crawledUrls ++ [u])
          (links.filter (fun l => linkFilter pattern l)) st.queue⟩ := by
  have hnm : u ∉ st.crawledUrls := contains_eq_false.mp hnc
  simp [crawlPage, hnm, hlk, enqFold]

theorem enqFold_inv (C : List String) (G : String → Prop) :
    ∀ (L q : List String),
      (∀ l ∈ L, G (normalizeURL l)) →
      q.Nodup → (∀ x ∈ q, x ∉ C) → (∀ x ∈ q, G x) →
      (enqFold C L q).Nodup ∧ (∀ x ∈ enqFold C L q, x ∉ C) ∧
        (∀ x ∈ enqFold C L q, G x) := by
  intro L
  induction L with
  | nil => intro q _ h1 h2 h3; exact ⟨h1, h2, h3⟩
  | cons l rest ih =>
    intro q hG h1 h2 h3
    have hGrest : ∀ x ∈ rest, G (normalizeURL x) :=
      fun x hx => hG x (List.mem_cons_of_mem _ hx)
    have hstep : enqFold C (l :: rest) q =
        enqFold C rest
          (if !C.contains (normalizeURL l) && !q.contains (normalizeURL l)
            then q ++ [normalizeURL l] else q) := by
      simp [enqFold]
    rw [hstep]
    by_cases hc :
        (!C.contains (normalizeURL l) && !q.contains (normalizeURL l)) = true
    · rw [if_pos hc]
      simp only [Bool.and_eq_true, Bool.not_eq_true'] at hc
      have hnotC : normalizeURL l ∉ C := contains_eq_false.mp hc.1
      have hnotq : normalizeURL l ∉ q := contains_eq_false.mp hc.2
      refine ih _ hGrest (nodup_concat h1 hnotq) ?_ ?_
      · intro x hx
        rcases List.mem_append.mp hx with hx | hx
        · exact h2 x hx
        · rw [List.mem_singleton.mp hx]; exact hnotC
      · intro x hx
        rcases List.mem_append.mp hx with hx | hx
        · exact h3 x hx
        · rw [List.mem_singleton.mp hx]
          exact hG l (List.mem_cons_self _ _)
    · rw [if_neg hc]
      exact ih q hGrest h1 h2 h3

theorem crawlInv_init (web : Web) (pattern : String → Bool) (seed : String) :
    CrawlInv web pattern seed ⟨[], [seed]⟩ := by
  refine ⟨?_, ?_, ?_, ?_, ?_, ?_, ?_, ?_⟩
  · exact List.nodup_singleton seed
  · intro u _; simp
  · exact List.nodup_nil
  · intro u hu
    rw [List.mem_singleton.mp hu]
    exact List.mem_cons_self _ _
  · intro u hu; simp at hu
  · intro v hv
    exact Or.inl (List.mem_singleton.mp hv)
  · intro v hv; simp at hv
  · exact Or.inl ⟨rfl, rfl⟩

theorem crawlPage_preserves {web : Web} {pattern : String → Bool}
    {seed : String} {st st' : CrawlState} {u : String} {rest : List String}
    (hinv : CrawlInv web pattern seed st) (hq : st.queue = u :: rest)
    (hok : crawlPage web pattern { st with queue := rest } u = .ok st') :
    CrawlInv web pattern seed st' ∧
      st'.crawledUrls = st.crawledUrls ++ [u] := by
  have hu_mem : u ∈ st.queue := by rw [hq]; exact List.mem_cons_self u rest
  have hu_nc : u ∉ st.crawledUrls := hinv.queue_disjoint u hu_mem
  have hnc : st.crawledUrls.contains u = false := contains_eq_false.mpr hu_nc
  have hqn : (u :: rest).Nodup := hq ▸ hinv.queue_nodup
  have hu_rest : u ∉ rest := (List.nodup_cons.mp hqn).1
  have hrest_nodup : rest.Nodup := (List.nodup_cons.mp hqn).2
  cases hlk : lookupWeb web u with
  | none =>
    rw [crawlPage_error web pattern { st with queue := rest } u hnc hlk] at hok
    simp at hok
  | some links =>
    rw [crawlPage_ok web pattern { st with queue := rest } u hnc hlk] at hok
    simp only [Except.ok.injEq] at hok
    subst hok
    set C := st.crawledUrls ++ [u] with hC
    set G := fun x => x ∈ crawlUniverse web seed ∧
      (x = seed ∨ LinkOrigin web pattern x) with hGdef
    have hGlinks : ∀ l ∈ links.filter (fun l => linkFilter pattern l),
        G (normalizeURL l) := by
      intro l hl
      obtain ⟨hl_mem, hl_filt⟩ := List.mem_filter.mp hl
      exact ⟨mem_crawlUniverse_of_link hlk hl_mem,
        Or.inr ⟨u, links, l, hlk, hl_mem, hl_filt, rfl⟩⟩
    have hrest_notC : ∀ x ∈ rest, x ∉ C := by
      intro x hx
      have hx_q : x ∈ st.queue := by rw [hq]; exact List.mem_cons_of_mem _ hx
      have h1 : x ∉ st.crawledUrls := hinv.queue_disjoint x hx_q
      have h2 : x ≠ u := fun hxe => hu_rest (hxe ▸ hx)
      rw [hC]
      intro hm
      rcases List.mem_append.mp hm with hm | hm
      · exact h1 hm
      · exact h2 (List.mem_singleton.mp hm)
    have hrest_G : ∀ x ∈ rest, G x := by
      intro x hx
      have hx_q : x ∈ st.queue := by rw [hq]; exact List.mem_cons_of_mem _ hx
      exact ⟨hinv.queue_univ x hx_q, hinv.queue_origin x hx_q⟩
    obtain ⟨hfold_nodup, hfold_notC, hfold_G⟩ :=
      enqFold_inv C G (links.filter (fun l => linkFilter pattern l)) rest
        hGlinks hrest_nodup hrest_notC hrest_G
    refine ⟨⟨hfold_nodup, hfold_notC, ?_, ?_, ?_, ?_, ?_, ?_⟩, rfl⟩
    · exact nodup_concat hinv.crawled_nodup hu_nc
    · intro x hx; exact (hfold_G x hx).1
    · intro x hx
      rcases List.mem_append.mp hx with hx | hx
      · exact hinv.crawled_univ x hx
      · rw [List.mem_singleton.mp hx]; exact hinv.queue_univ u hu_mem
    · intro v hv; exact (hfold_G v hv).2
    · intro v hv
      rcases List.mem_append.mp hv with hv | hv
      · exact hinv.crawled_origin v hv
      · rw [List.mem_singleton.mp hv]; exact hinv.queue_origin u hu_mem
    · right
      show (st.crawledUrls ++ [u]).head? = some seed
      rcases hinv.seed_first with ⟨hc0, hq0⟩ | hhead
      · have h2 : u :: rest = seed :: [] := by rw [← hq, hq0]
        injection h2 with hus hrest
        rw [hc0, hus]
        rfl
      · cases hcs : st.crawledUrls with
        | nil => rw [hcs] at hhead; simp at hhead
        | cons c t =>
          rw [hcs] at hhead
          simp only [List.head?_cons, Option.some.injEq] at hhead
          simp [hhead]

theorem crawlReach_inv {web : Web} {pattern : String → Bool} {seed : String}
    {st : CrawlState} (h : CrawlReach web pattern seed st) :
    CrawlInv web pattern seed st := by
  induction h with
  | init => exact crawlInv_init web pattern seed
  | step hre hq hcp ih => exact (crawlPage_preserves ih hq hcp).1

theorem filter_length_erase :
    ∀ {l : List String} (p : String → Bool) (u : String), l.Nodup → u ∈ l →
      p u = true →
      (l.filter (fun x => p x && !(x == u))).length + 1 = (l.filter p).length := by
  intro l
  induction l with
  | nil => intro p u _ hu _; simp at hu
  | cons a rest ih =>
    intro p u hn hu hp
    have ha_rest : a ∉ rest := (List.nodup_cons.mp hn).1
    have hrest : rest.Nodup := (List.nodup_cons.mp hn).2
    by_cases hau : a = u
    · subst hau
      have hcongr : rest.filter (fun x => p x && !(x == a)) = rest.filter p := by
        apply List.filter_congr
        intro x hx
        have : x ≠ a := fun hxe => ha_rest (hxe ▸ hx)
        simp [this]
      simp [List.filter_cons, hp, hcongr]
    · have hu_rest : u ∈ rest := by
        rcases List.mem_cons.mp hu with h | h
        · exact absurd h.symm hau
        · exact h
      have hane : (a == u) = false := by
        simp [hau]
      cases hpa : p a with
      | true =>
        have c1 : (p a && !(a == u)) = true := by rw [hpa, hane]; rfl
        rw [List.filter_cons, List.filter_cons, if_pos c1, if_pos hpa]
        simp only [List.length_cons]
        have hrec := ih p u hrest hu_rest hp
        omega
      | false =>
        have c1 : (p a && !(a == u)) = false := by rw [hpa]; rfl
        rw [List.filter_cons, List.filter_cons, if_neg (by simp [c1]),
          if_neg (by simp [hpa])]
        exact ih p u hrest hu_rest hp

theorem remaining_step (web : Web) (seed : String) {st st' : CrawlState}
    {u : String} (hcu : st'.crawledUrls = st.crawledUrls ++ [u])
    (hu_univ : u ∈ crawlUniverse web seed) (hu_nc : u ∉ st.crawledUrls) :
    remaining web seed st' + 1 = remaining web seed st := by
  unfold remaining
  rw [hcu]
  have hpred : ∀ x ∈ (crawlUniverse web seed).dedup,
      (!(st.crawledUrls ++ [u]).contains x) =
        ((!st.crawledUrls.contains x) && !(x == u)) := by
    intro x _
    have hsplit : (st.crawledUrls ++ [u]).contains x =
        (st.crawledUrls.contains x || (x == u)) := by
      by_cases hx1 : x ∈ st.crawledUrls
      · rw [contains_eq_true.mpr (List.mem_append.mpr (Or.inl hx1)),
          contains_eq_true.mpr hx1]
        rfl
      · by_cases hx2 : x = u
        · subst hx2
          rw [contains_eq_true.mpr (List.mem_append.mpr (Or.inr (by simp))),
            contains_eq_false.mpr hx1]
          simp
        · rw [contains_eq_false.mpr (by
              intro hm
              rcases List.mem_append.mp hm with h | h
              · exact hx1 h
              · exact hx2 (List.mem_singleton.mp h)),
            contains_eq_false.mpr hx1]
          simp [hx2]
    rw [hsplit, Bool.not_or]
  rw [List.filter_congr hpred]
  exact filter_length_erase (fun x => !st.crawledUrls.contains x) u
    (List.nodup_dedup _) (List.mem_dedup.mpr hu_univ)
    (by show (!st.crawledUrls.contains u) = true
        rw [contains_eq_false.mpr hu_nc]; rfl)

theorem crawlLoop_some (web : Web) (pattern : String → Bool) (seed : String) :
    ∀ (n : Nat) (st : CrawlState), CrawlInv web pattern seed st →
      remaining web seed st ≤ n →
      ∃ r, crawlLoop web pattern n st = some r := by
  intro n
  induction n with
  | zero =>
    intro st hinv hrem
    cases hq : st.queue with
    | nil => exact ⟨.ok st, by simp [crawlLoop, hq]⟩
    | cons u rest =>
      exfalso
      have hu_mem : u ∈ st.queue := by rw [hq]; exact List.mem_cons_self u rest
      have h1 : u ∈ (crawlUniverse web seed).dedup.filter
          (fun x => !st.crawledUrls.contains x) := by
        rw [List.mem_filter]
        refine ⟨List.mem_dedup.mpr (hinv.queue_univ u hu_mem), ?_⟩
        rw [contains_eq_false.mpr (hinv.queue_disjoint u hu_mem)]
        rfl
      have h2 : 0 < remaining web seed st := by
        unfold remaining
        exact List.length_pos.mpr (List.ne_nil_of_mem h1)
      omega
  | succ n ih =>
    intro st hinv hrem
    cases hq : st.queue with
    | nil => exact ⟨.ok st, by simp [crawlLoop, hq]⟩
    | cons u rest =>
      have hu_mem : u ∈ st.queue := by rw [hq]; exact List.mem_cons_self u rest
      have hu_nc : u ∉ st.crawledUrls := hinv.queue_disjoint u hu_mem
      have hnc : st.crawledUrls.contains u = false := contains_eq_false.mpr hu_nc
      cases hlk : lookupWeb web u with
      | none =>
        refine ⟨.error u, ?_⟩
        have hcp :=
          crawlPage_error web pattern { st with queue := rest } u hnc hlk
        simp [crawlLoop, hq, hcp]
      | some links =>
        have hok :=
          crawlPage_ok web pattern { st with queue := rest } u hnc hlk
        obtain ⟨hinv', hcu⟩ := crawlPage_preserves hinv hq hok
        have hrs := remaining_step web seed hcu
          (hinv.queue_univ u hu_mem) hu_nc
        obtain ⟨r, hr⟩ := ih _ hinv' (by omega)
        exact ⟨r, by simp [crawlLoop, hq, hok, hr]⟩

theorem crawlRun_total (web : Web) (pattern : String → Bool) (seed : String) :
    ∃ r, crawlRun web pattern seed = some r := by
  unfold crawlRun
  apply crawlLoop_some web pattern seed _ _ (crawlInv_init web pattern seed)
  unfold remaining
  have : ∀ x ∈ (crawlUniverse web seed).dedup,
      (!(((⟨[], [seed]⟩ : CrawlState).crawledUrls).contains x)) = true := by
    intro x _
    rfl
  rw [List.filter_congr this]
  simp

theorem crawlLoop_reach (web : Web) (pattern : String → Bool) (seed : String) :
    ∀ (n : Nat) (st st' : CrawlState), CrawlReach web pattern seed st →
      crawlLoop web pattern n st = some (.ok st') →
      CrawlReach web pattern seed st' ∧ st'.queue = [] := by
  intro n
  induction n with
  | zero =>
    intro st st' hre hloop
    cases hq : st.queue with
    | nil =>
      simp only [crawlLoop, hq, Option.some.injEq, Except.ok.injEq] at hloop
      subst hloop
      exact ⟨hre, hq⟩
    | cons u rest => simp [crawlLoop, hq] at hloop
  | succ n ih =>
    intro st st' hre hloop
    cases hq : st.queue with
    | nil =>
      simp only [crawlLoop, hq, Option.some.injEq, Except.ok.injEq] at hloop
      subst hloop
      exact ⟨hre, hq⟩
    | cons u rest =>
      cases hcp : crawlPage web pattern { st with queue := rest } u with
      | error e => simp [crawlLoop, hq, hcp] at hloop
      | ok st₁ =>
        have hre₁ : CrawlReach web pattern seed st₁ :=
          CrawlReach.step hre hq hcp
        have hl : crawlLoop web pattern n st₁ = some (.ok st') := by
          rw [← hloop]
          simp [crawlLoop, hq, hcp]
        exact ih st₁ st' hre₁ hl

/-! # Lemmas about `strIncludes` -/

theorem strIncludes_go_iff :
    ∀ (sub cs : List Char), strIncludes.go sub cs = true ↔ sub <:+: cs := by
  intro sub cs
  induction cs with
  | nil =>
    simp [strIncludes.go, List.isEmpty_iff]
  | cons c rest ih =>
    simp only [strIncludes.go, Bool.or_eq_true, ih,
      List.isPrefixOf_iff_prefix]
    exact (List.infix_cons_iff).symm

theorem strIncludes_mono {v l : String} (hpre : v.toList <+: l.toList)
    (sub : String) (h : strIncludes l sub = false) :
    strIncludes v sub = false := by
  unfold strIncludes at *
  cases hgo : strIncludes.go sub.toList v.toList with
  | false => rfl
  | true =>
    exfalso
    have h1 : sub.toList <:+: v.toList := (strIncludes_go_iff _ _).mp hgo
    have h2 : sub.toList <:+: l.toList :=
      List.IsInfix.trans h1 hpre.isInfix
    rw [(strIncludes_go_iff _ _).mpr h2] at h
    exact Bool.noConfusion h

/-! # C1: visit-once discipline and termination of the crawl -/

/-- C1 counterexample: the crawl of `cexWeb1` fetches two distinct URL
strings with the same normalized form — deduplication is at the level
of exact strings, normalization is applied only once to enqueued links,
and it is not idempotent.  After crawling the seed, the queue holds
`.../x/` and `.../x` simultaneously (the same CrawlTarget twice, since
their normalized forms agree), and the finished run has fetched both. -/
theorem crawl_fetches_normalized_target_twice :
    crawlPage cexWeb1 (fun _ => true) ⟨[], []⟩ "https://a.com" =
      .ok ⟨["https://a.com"], ["https://a.com/x/", "https://a.com/x"]⟩ ∧
    crawlRun cexWeb1 (fun _ => true) "https://a.com" =
      some (.ok ⟨["https://a.com", "https://a.com/x/", "https://a.com/x"], []⟩) ∧
    normalizeURL "https://a.com/x/" = normalizeURL "https://a.com/x" ∧
    "https://a.com/x/" ≠ "https://a.com/x" :=
  ⟨rfl, rfl, rfl, by decide⟩

/-- C1 (amended): deduplication holds at the level of exact URL
strings: in every reachable crawl state the pending queue holds no
string twice and no already-visited string, the crawl always halts
within its fuel bound, and a finished run has visited each URL string
at most once, with an empty queue.  (At the level of *normalized* URLs
the property fails, see the counterexample.) -/
theorem crawl_visits_each_string_once (web : Web) (pattern : String → Bool)
    (seed : String) :
    (∀ st, CrawlReach web pattern seed st →
      st.queue.Nodup ∧ (∀ u ∈ st.queue, u ∉ st.crawledUrls) ∧
        st.crawledUrls.Nodup) ∧
    (∃ r, crawlRun web pattern seed = some r) ∧
    (∀ st, crawlRun web pattern seed = some (.ok st) →
      st.crawledUrls.Nodup ∧ st.queue = []) := by
  refine ⟨?_, crawlRun_total web pattern seed, ?_⟩
  · intro st hre
    have hinv := crawlReach_inv hre
    exact ⟨hinv.queue_nodup, hinv.queue_disjoint, hinv.crawled_nodup⟩
  · intro st hrun
    have hr := crawlLoop_reach web pattern seed
      ((crawlUniverse web seed).dedup).length ⟨[], [seed]⟩ st
      CrawlReach.init hrun
    exact ⟨(crawlReach_inv hr.1).crawled_nodup, hr.2⟩

/-- C1 witness: the finished one-page crawl visited `"s"` once and
emptied its queue. -/
theorem crawl_visits_each_string_once_witness :
    (⟨["s"], []⟩ : CrawlState).crawledUrls.Nodup ∧
    (⟨["s"], []⟩ : CrawlState).queue = [] :=
  (crawl_visits_each_string_once w0 (fun _ => true) "s").2.2 ⟨["s"], []⟩ rfl

/-! # C2: crawl-phase fetch failures -/

/-- C2 counterexample: on `cexWeb2` the seed page links to two pages
and fetching the first of them fails; the crawl loop does not continue
to the second queued URL — the failure propagates out of the whole
crawl (the crawl produces an error, not a discovered set). -/
theorem crawl_failure_not_recovered :
    crawlRun cexWeb2 (fun _ => true) "https://a.com" =
      some (.error "https://a.com/u2") :=
  rfl

/-- C2 (amended): when fetching a dequeued page fails during the crawl
phase, the failure aborts the crawl loop at once: `crawlPage` has no
`catch`, so the loop returns that page's error and the remaining queued
URLs are never processed; no discovered set is produced. -/
theorem crawl_fetch_failure_aborts (web : Web) (pattern : String → Bool)
    (fuel : Nat) (st : CrawlState) (u : String) (rest : List String)
    (hq : st.queue = u :: rest)
    (hnc : st.crawledUrls.contains u = false)
    (hlk : lookupWeb web u = none) :
    crawlLoop web pattern (fuel + 1) st = some (.error u) := by
  have hcp := crawlPage_error web pattern { st with queue := rest } u hnc hlk
  simp [crawlLoop, hq, hcp]

/-- C2 witness: a failing fetch of the only queued URL ends the loop
with that error. -/
theorem crawl_fetch_failure_aborts_witness :
    crawlLoop [] (fun _ => true) 1 ⟨[], ["x"]⟩ = some (.error "x") :=
  crawl_fetch_failure_aborts [] (fun _ => true) 0 ⟨[], ["x"]⟩ "x" [] rfl rfl rfl

/-! # C5: crawl scope -/

/-- C5: every URL in the visited set of a finished crawl is the seed or
the normalization of an extracted link that passed the in-page filter —
so a link whose absolute form fails the pattern predicate never causes
an addition to the visited set, a link containing `#`, `mailto:` or
`tel:` never does regardless of the pattern, and every visited URL
other than the seed itself carries none of the three markers. -/
theorem crawl_scope (web : Web) (pattern : String → Bool) (seed : String)
    (st : CrawlState) (h : crawlRun web pattern seed = some (.ok st)) :
    ∀ v ∈ st.crawledUrls, v = seed ∨
      (LinkOrigin web pattern v ∧ strIncludes v "#" = false ∧
        strIncludes v "mailto:" = false ∧ strIncludes v "tel:" = false) := by
  have hre := (crawlLoop_reach web pattern seed
    ((crawlUniverse web seed).dedup).length ⟨[], [seed]⟩ st
    CrawlReach.init h).1
  have hinv := crawlReach_inv hre
  intro v hv
  rcases hinv.crawled_origin v hv with hseed | horig
  · exact Or.inl hseed
  · refine Or.inr ⟨horig, ?_, ?_, ?_⟩ <;>
    · obtain ⟨u, links, l, hlk, hl, hf, hveq⟩ := horig
      simp only [linkFilter, Bool.and_eq_true, Bool.not_eq_true'] at hf
      have hpre : v.toList <+: l.toList := by
        rw [hveq]
        exact normalizeChars_isPrefix l.toList
      first
      | exact strIncludes_mono hpre "#" hf.1.1.1
      | exact strIncludes_mono hpre "mailto:" hf.1.1.2
      | exact strIncludes_mono hpre "tel:" hf.1.2

/-- C5 witness: the seed of the one-page crawl satisfies the scope
disjunction. -/
theorem crawl_scope_witness :
    "s" = "s" ∨
      (LinkOrigin w0 (fun _ => true) "s" ∧ strIncludes "s" "#" = false ∧
        strIncludes "s" "mailto:" = false ∧ strIncludes "s" "tel:" = false) :=
  crawl_scope w0 (fun _ => true) "s" ⟨["s"], []⟩ rfl "s" (by simp)

/-! # C6: seed inclusion -/

/-- C6: in every finished crawl the seed is in the discovered output
list and is its first entry, regardless of whether any page links back
to it (the seed is the first URL dequeued and visited, and
`uniqueSubLinks` would force-prepend it even if it were absent). -/
theorem crawl_seed_first (web : Web) (pattern : String → Bool) (seed : String)
    (st : CrawlState) (h : crawlRun web pattern seed = some (.ok st)) :
    seed ∈ uniqueSubLinks st.crawledUrls seed ∧
    (uniqueSubLinks st.crawledUrls seed).head? = some seed := by
  obtain ⟨hre, hqnil⟩ := crawlLoop_reach web pattern seed
    ((crawlUniverse web seed).dedup).length ⟨[], [seed]⟩ st
    CrawlReach.init h
  have hinv := crawlReach_inv hre
  rcases hinv.seed_first with ⟨hc0, hq0⟩ | hhead
  · rw [hqnil] at hq0
    simp at hq0
  · cases hcs : st.crawledUrls with
    | nil => rw [hcs] at hhead; simp at hhead
    | cons c t =>
      rw [hcs] at hhead
      simp only [List.head?_cons, Option.some.injEq] at hhead
      have hcont : (c :: t).contains seed = true :=
        contains_eq_true.mpr (by rw [← hhead]; exact List.mem_cons_self _ _)
      unfold uniqueSubLinks
      rw [if_pos hcont]
      constructor
      · rw [← hhead]
        exact List.mem_cons_self _ _
      · rw [List.head?_cons, hhead]

/-- C6 witness: the one-page crawl yields the seed first. -/
theorem crawl_seed_first_witness :
    "s" ∈ uniqueSubLinks (⟨["s"], []⟩ : CrawlState).crawledUrls "s" ∧
    (uniqueSubLinks (⟨["s"], []⟩ : CrawlState).crawledUrls "s").head? =
      some "s" :=
  crawl_seed_first w0 (fun _ => true) "s" ⟨["s"], []⟩ rfl

end Site2pdf
